import Mathlib

/-!
Verification of the core logic of `cutr` (a Rust reimplementation of the Unix
`cut` utility) against its natural-language specification.

The embedding models Rust strings as `List Char` (for character-level
operations) and as their UTF-8 byte sequences `List Nat` (for byte-level
operations).  `usize` is modelled as `Nat` with the 64-bit overflow bound made
explicit where the Rust code's integer parsing can overflow.  Fallible Rust
functions returning `Result` are modelled with `Except String`.
-/

/-- Rust `Range<usize>`: a half-open interval of zero-based indices.
`stop` stands for Rust's field `end` (a Lean keyword). -/
structure PosRange where
  start : Nat
  stop : Nat
deriving DecidableEq, Repr

/-- `usize::MAX` on a 64-bit target: `parse::<NonZeroUsize>` fails with an
overflow error for larger values. -/
def USIZE_MAX : Nat := 2 ^ 64 - 1

/-- Decimal value of a digit string, as Rust's integer parsing computes it
(leading zeros are ordinary digits). -/
def toVal (l : List Char) : Nat :=
  l.foldl (fun a c => 10 * a + (c.toNat - 48)) 0

/-- A nonempty, all-ASCII-digit token. -/
def allDigits (l : List Char) : Bool :=
  !l.isEmpty && l.all Char.isDigit

/-- Model of `input.parse::<NonZeroUsize>()` restricted to the inputs reachable
here (the leading `+` is rejected by the caller before parsing): it succeeds
exactly on nonempty ASCII-digit strings whose value is positive and fits in
`usize`. -/
def parseNZ (l : List Char) : Option Nat :=
  if allDigits l && decide (0 < toVal l) && decide (toVal l ≤ USIZE_MAX) then
    some (toVal l)
  else
    none

/-- The error message `format!("illegal list value: \"{}\"", input)`. -/
def valueError (l : List Char) : String :=
  "illegal list value: \"" ++ l.asString ++ "\""

/-- Rust `parse_index`: reject a leading `+`, otherwise parse as a
`NonZeroUsize` and convert to a zero-based index. -/
def parse_index (l : List Char) : Except String Nat :=
  if l.head? = some '+' then
    .error (valueError l)
  else
    match parseNZ l with
    | some n => .ok (n - 1)
    | none => .error (valueError l)

/-- Rust `str::split(',')`: the empty string yields one empty token, and a
trailing comma yields a trailing empty token. -/
def splitComma : List Char → List (List Char)
  | [] => [[]]
  | c :: cs =>
    if c = ',' then
      [] :: splitComma cs
    else
      match splitComma cs with
      | t :: ts => (c :: t) :: ts
      | [] => [[c]]

/-- Split a token at its first `-`, returning the parts before and after. -/
def splitDash : List Char → Option (List Char × List Char)
  | [] => none
  | c :: cs =>
    if c = '-' then
      some ([], cs)
    else
      (splitDash cs).map (fun p => (c :: p.1, p.2))

/-- Model of matching the anchored regex `^(\d+)-(\d+)$` and extracting its two
captures.  A string matches iff it splits at a `-` into two nonempty digit
runs; since a digit run cannot contain `-`, splitting at the first `-` decides
this.  Modelling scope: `\d` is taken to be an ASCII digit, whereas the regex
crate's `\d` is the Unicode class `\p{Nd}` (whose exact extent depends on the
crate's Unicode table).  The two classes agree on ASCII text, and on tokens
the program can parse successfully (integer parsing is ASCII-only, so captures
holding non-ASCII digits always fail it); they differ only on tokens holding
non-ASCII decimal digits, where the real regex can match and the program then
echoes the failing capture instead of the whole token.  Theorems that rely on
this function returning `none` therefore quantify only over ASCII tokens
(`'+'`-led tokens excepted: `+` is in no `\d` class, so non-matching is exact
for them). -/
def rangeMatch (l : List Char) : Option (List Char × List Char) :=
  match splitDash l with
  | none => none
  | some (a, b) => if allDigits a && allDigits b then some (a, b) else none

/-- The error message for a reversed or empty range, built as in the source
from the zero-based bounds `n1` and `n2`. -/
def rangeOrderMsg (n1 n2 : Nat) : String :=
  "First number in range (" ++ Nat.repr (n1 + 1) ++
    ") must be lower than second number (" ++ Nat.repr (n2 + 1) ++ ")"

/-- The per-token closure inside Rust `parse_pos`: first try `parse_index` on
the whole token (a single index `n` becomes `n..n+1`); on failure, try the
range regex, parse both captures, require the first bound below the second,
and return `n1..n2+1`; if the regex does not match, report the original
`parse_index` error. -/
def parseToken (val : List Char) : Except String PosRange :=
  match parse_index val with
  | .ok n => .ok ⟨n, n + 1⟩
  | .error e =>
    match rangeMatch val with
    | none => .error e
    | some (a, b) =>
      match parse_index a with
      | .error e2 => .error e2
      | .ok n1 =>
        match parse_index b with
        | .error e2 => .error e2
        | .ok n2 =>
          if n1 ≥ n2 then
            .error (rangeOrderMsg n1 n2)
          else
            .ok ⟨n1, n2 + 1⟩

/-- Rust `.collect::<Result<Vec<_>, _>>()`: map a fallible function over a
list, stopping at the first error. -/
def mapE (f : α → Except ε β) : List α → Except ε (List β)
  | [] => .ok []
  | a :: as =>
    match f a with
    | .error e => .error e
    | .ok b =>
      match mapE f as with
      | .error e => .error e
      | .ok bs => .ok (b :: bs)

/-- Rust `parse_pos`: split the specification on commas and parse each token,
concatenating the results in token order. -/
def parse_pos (s : List Char) : Except String (List PosRange) :=
  mapE parseToken (splitComma s)

/-- Rust `extract_chars`: for each range in list order,
`line.chars().skip(start).take(end - start)` is appended to the output. -/
def extract_chars (line : List Char) : List PosRange → List Char
  | [] => []
  | p :: ps => (line.drop p.start).take (p.stop - p.start) ++ extract_chars line ps

/-- UTF-8 encoding of one Unicode scalar value, as `str::bytes` produces it. -/
def utf8EncodeChar (c : Char) : List Nat :=
  let n := c.toNat
  if n < 0x80 then
    [n]
  else if n < 0x800 then
    [0xC0 ||| (n >>> 6), 0x80 ||| (n &&& 0x3F)]
  else if n < 0x10000 then
    [0xE0 ||| (n >>> 12), 0x80 ||| ((n >>> 6) &&& 0x3F), 0x80 ||| (n &&& 0x3F)]
  else
    [0xF0 ||| (n >>> 18), 0x80 ||| ((n >>> 12) &&& 0x3F),
      0x80 ||| ((n >>> 6) &&& 0x3F), 0x80 ||| (n &&& 0x3F)]

/-- The UTF-8 byte sequence of a string (`line.bytes()`). -/
def utf8Encode (s : List Char) : List Nat :=
  (s.map utf8EncodeChar).flatten

/-- A UTF-8 continuation byte, `0x80..=0xBF`. -/
def utf8Cont (b : Nat) : Bool :=
  0x80 ≤ b && b ≤ 0xBF

/-- Valid second byte of a multi-byte UTF-8 sequence headed by `b`, per the
restricted ranges that exclude overlong and surrogate encodings. -/
def utf8Second (b c : Nat) : Bool :=
  if b = 0xE0 then 0xA0 ≤ c && c ≤ 0xBF
  else if b = 0xED then 0x80 ≤ c && c ≤ 0x9F
  else if b = 0xF0 then 0x90 ≤ c && c ≤ 0xBF
  else if b = 0xF4 then 0x80 ≤ c && c ≤ 0x8F
  else utf8Cont c

/-- The Unicode replacement character U+FFFD. -/
def repChar : Char := Char.ofNat 0xFFFD

/-- One pass of the lossy decoder, structurally recursive on a fuel bound.
Each step consumes at least one byte, so `fuel = length` always suffices. -/
def utf8LossyGo : Nat → List Nat → List Char
  | 0, _ => []
  | _ + 1, [] => []
  | fuel + 1, b :: rest =>
    if b < 0x80 then
      Char.ofNat b :: utf8LossyGo fuel rest
    else if 0xC2 ≤ b && b ≤ 0xDF then
      match rest with
      | [] => [repChar]
      | c :: r2 =>
        if utf8Cont c then
          Char.ofNat (((b &&& 0x1F) <<< 6) ||| (c &&& 0x3F)) :: utf8LossyGo fuel r2
        else
          repChar :: utf8LossyGo fuel (c :: r2)
    else if 0xE0 ≤ b && b ≤ 0xEF then
      match rest with
      | [] => [repChar]
      | c :: r2 =>
        if utf8Second b c then
          match r2 with
          | [] => [repChar]
          | d :: r3 =>
            if utf8Cont d then
              Char.ofNat (((b &&& 0x0F) <<< 12) ||| ((c &&& 0x3F) <<< 6) |||
                (d &&& 0x3F)) :: utf8LossyGo fuel r3
            else
              repChar :: utf8LossyGo fuel (d :: r3)
        else
          repChar :: utf8LossyGo fuel (c :: r2)
    else if 0xF0 ≤ b && b ≤ 0xF4 then
      match rest with
      | [] => [repChar]
      | c :: r2 =>
        if utf8Second b c then
          match r2 with
          | [] => [repChar]
          | d :: r3 =>
            if utf8Cont d then
              match r3 with
              | [] => [repChar]
              | e :: r4 =>
                if utf8Cont e then
                  Char.ofNat (((b &&& 0x07) <<< 18) ||| ((c &&& 0x3F) <<< 12) |||
                    ((d &&& 0x3F) <<< 6) ||| (e &&& 0x3F)) :: utf8LossyGo fuel r4
                else
                  repChar :: utf8LossyGo fuel (e :: r4)
            else
              repChar :: utf8LossyGo fuel (d :: r3)
        else
          repChar :: utf8LossyGo fuel (c :: r2)
    else
      repChar :: utf8LossyGo fuel rest

/-- Model of `String::from_utf8_lossy`: decode valid UTF-8 sequences and
substitute U+FFFD for each maximal subpart of an ill-formed subsequence
(the invalid byte itself is not consumed when a prefix of a multi-byte
sequence fails). -/
def utf8LossyDecode (bs : List Nat) : List Char :=
  utf8LossyGo bs.length bs

/-- The byte-selection loop of Rust `extract_bytes`: for each range in list
order, `line.bytes().skip(start).take(end - start)` is appended to the
accumulated byte buffer. -/
def selBytes (bytes : List Nat) : List PosRange → List Nat
  | [] => []
  | p :: ps => (bytes.drop p.start).take (p.stop - p.start) ++ selBytes bytes ps

/-- Rust `extract_bytes`: select bytes from the line's UTF-8 representation,
then decode the accumulated buffer with `String::from_utf8_lossy`. -/
def extract_bytes (line : List Char) (byte_pos : List PosRange) : List Char :=
  utf8LossyDecode (selBytes (utf8Encode line) byte_pos)

/-- Rust `extract_fields`: for each range in list order,
`record.iter().skip(start).take(end - start)` is appended to the output. -/
def extract_fields (record : List String) : List PosRange → List String
  | [] => []
  | p :: ps => (record.drop p.start).take (p.stop - p.start) ++ extract_fields record ps

/-- The clap `Extract` argument group: three optional position lists, one per
mode.  The "exactly one present" invariant is enforced at the CLI boundary,
not by this type. -/
structure Extract where
  fields : Option (List PosRange)
  bytes : Option (List PosRange)
  chars : Option (List PosRange)

/-- What an opened source yields to `run`, abstracting the I/O collaborators:
`lines` models `BufRead::lines()` (each item a line or a read error) and
`records` models the csv reader's `records()` (each item a pre-split record or
a read error). -/
structure SourceData where
  lines : List (Except String (List Char))
  records : List (Except String (List String))

/-- A list of input sources as `run` sees them: each has a name and either an
open error or its opened data. -/
abbrev Sources : Type := List (String × Except String SourceData)

/-- One unit of standard output: a printed line (char/byte modes) or a written
record (field mode). -/
inductive OutItem where
  | line : List Char → OutItem
  | record : List String → OutItem
deriving DecidableEq, Repr

/-- How processing one opened source ends: the stream was exhausted, a read
error was hit (propagated by `?` out of `run`), or no mode was selected and
the `unimplemented!()` fallback was reached. -/
inductive SourceStep where
  | done : SourceStep
  | readErr : String → SourceStep
  | noMode : SourceStep
deriving DecidableEq, Repr

/-- How `run` ends: `Ok(())`, an error propagated from a mid-stream read
failure, or the `unimplemented!()` panic. -/
inductive RunOutcome where
  | ok : RunOutcome
  | readError : String → RunOutcome
  | noMode : RunOutcome
deriving DecidableEq, Repr

/-- The per-line loop of `run` in char/byte mode: each successful line is
extracted (via `f`) and printed; the first read error stops the loop. -/
def consumeLines (f : List Char → List Char) :
    List (Except String (List Char)) → List OutItem × Option String
  | [] => ([], none)
  | .error e :: _ => ([], some e)
  | .ok l :: rest =>
    let r := consumeLines f rest
    (.line (f l) :: r.1, r.2)

/-- The per-record loop of `run` in field mode: each successful record is
passed through `extract_fields` and written; the first read error stops the
loop. -/
def consumeRecords (pl : List PosRange) :
    List (Except String (List String)) → List OutItem × Option String
  | [] => ([], none)
  | .error e :: _ => ([], some e)
  | .ok rec :: rest =>
    let r := consumeRecords pl rest
    (.record (extract_fields rec pl) :: r.1, r.2)

/-- Lift the optional read error of a source loop into a `SourceStep`. -/
def stepOf (p : List OutItem × Option String) : List OutItem × SourceStep :=
  (p.1, match p.2 with
        | some e => .readErr e
        | none => .done)

/-- The mode dispatch of `run` for one opened source, in the source's branch
order: `chars`, then `bytes`, then `fields`, else the `unimplemented!()`
fallback. -/
def runSource (ex : Extract) (sd : SourceData) : List OutItem × SourceStep :=
  match ex.chars with
  | some pl => stepOf (consumeLines (fun l => extract_chars l pl) sd.lines)
  | none =>
    match ex.bytes with
    | some pl => stepOf (consumeLines (fun l => extract_bytes l pl) sd.lines)
    | none =>
      match ex.fields with
      | some pl => stepOf (consumeRecords pl sd.records)
      | none => ([], .noMode)

/-- Rust `run`: process the sources in order.  An open failure prints
`"<name>: <error>"` to stderr and continues with the next source; a read
error (or the fallback panic) ends the whole run, keeping the output already
written.  Returns the stdout items, the stderr messages, and the outcome. -/
def run (ex : Extract) : Sources → List OutItem × List String × RunOutcome
  | [] => ([], [], .ok)
  | (name, .error e) :: rest =>
    let r := run ex rest
    (r.1, (name ++ ": " ++ e) :: r.2.1, r.2.2)
  | (_, .ok sd) :: rest =>
    match runSource ex sd with
    | (os, .done) =>
      let r := run ex rest
      (os ++ r.1, r.2.1, r.2.2)
    | (os, .readErr e) => (os, [], .readError e)
    | (os, .noMode) => (os, [], .noMode)

/-! ## Well-formed tokens and the parser's success behaviour -/

/-- A well-formed token of a position specification, paired with the range it
denotes: either a single positive integer `N` (digits only, positive, fitting
in `usize`) denoting `[N-1, N)`, or a range `N1-N2` of two such integers with
`N1 < N2`, denoting `[N1-1, N2)`. -/
inductive WFTok : List Char → PosRange → Prop
  | num (l : List Char) (hd : allDigits l = true) (h0 : 0 < toVal l)
      (hb : toVal l ≤ USIZE_MAX) : WFTok l ⟨toVal l - 1, toVal l⟩
  | rng (a b : List Char) (ha : allDigits a = true) (hb : allDigits b = true)
      (h0 : 0 < toVal a) (hlt : toVal a < toVal b) (hub : toVal b ≤ USIZE_MAX) :
      WFTok (a ++ '-' :: b) ⟨toVal a - 1, toVal b⟩

theorem allDigits_ne_nil {l : List Char} (h : allDigits l = true) : l ≠ [] := by
  intro hn
  subst hn
  simp [allDigits] at h

theorem allDigits_mem {l : List Char} (h : allDigits l = true) {c : Char}
    (hc : c ∈ l) : c.isDigit = true := by
  unfold allDigits at h
  rw [Bool.and_eq_true] at h
  exact List.all_eq_true.mp h.2 c hc

theorem head_not_plus_of_digits {l : List Char} (h : allDigits l = true) :
    l.head? ≠ some '+' := by
  cases l with
  | nil => simp
  | cons c cs =>
    intro hc
    simp at hc
    subst hc
    have := allDigits_mem h (List.mem_cons_self _ _)
    simp [Char.isDigit] at this

theorem parseNZ_of_digits {l : List Char} (hd : allDigits l = true)
    (h0 : 0 < toVal l) (hb : toVal l ≤ USIZE_MAX) :
    parseNZ l = some (toVal l) := by
  unfold parseNZ
  rw [hd]
  simp [h0, hb]

theorem parse_index_of_digits {l : List Char} (hd : allDigits l = true)
    (h0 : 0 < toVal l) (hb : toVal l ≤ USIZE_MAX) :
    parse_index l = .ok (toVal l - 1) := by
  unfold parse_index
  rw [if_neg (head_not_plus_of_digits hd), parseNZ_of_digits hd h0 hb]

theorem no_dash_of_digits {l : List Char} (h : allDigits l = true) :
    '-' ∉ l := by
  intro hm
  have := allDigits_mem h hm
  simp [Char.isDigit] at this

theorem parseNZ_of_dash_mem {l : List Char} (h : '-' ∈ l) : parseNZ l = none := by
  unfold parseNZ
  have : allDigits l = false := by
    rcases hd : allDigits l with _ | _
    · rfl
    · exact absurd h (no_dash_of_digits hd)
  rw [this]
  simp

theorem parse_index_err_of_dash {a b : List Char} (ha : allDigits a = true) :
    parse_index (a ++ '-' :: b) = .error (valueError (a ++ '-' :: b)) := by
  have hm : '-' ∈ a ++ '-' :: b := List.mem_append_right _ (List.mem_cons_self _ _)
  unfold parse_index
  rw [parseNZ_of_dash_mem hm]
  rw [if_neg]
  intro hh
  cases a with
  | nil => simp at hh
  | cons c cs =>
    simp at hh
    subst hh
    have := allDigits_mem ha (List.mem_cons_self _ _)
    simp [Char.isDigit] at this

theorem splitDash_append {a : List Char} (ha : '-' ∉ a) (b : List Char) :
    splitDash (a ++ '-' :: b) = some (a, b) := by
  induction a with
  | nil => simp [splitDash]
  | cons c cs ih =>
    have hc : c ≠ '-' := fun h => ha (h ▸ List.mem_cons_self _ _)
    have hcs : '-' ∉ cs := fun h => ha (List.mem_cons_of_mem _ h)
    simp [List.cons_append, splitDash, hc, ih hcs]

theorem rangeMatch_append {a b : List Char} (ha : allDigits a = true)
    (hb : allDigits b = true) : rangeMatch (a ++ '-' :: b) = some (a, b) := by
  unfold rangeMatch
  rw [splitDash_append (no_dash_of_digits ha) b]
  simp [ha, hb]

theorem parseToken_wf {t : List Char} {r : PosRange} (h : WFTok t r) :
    parseToken t = .ok r := by
  cases h with
  | num l hd h0 hb =>
    have hup : toVal t - 1 + 1 = toVal t := Nat.succ_pred_eq_of_pos h0
    simp only [parseToken, parse_index_of_digits hd h0 hb, hup]
  | rng a b ha hb h0 hlt hub =>
    have h0b : 0 < toVal b := Nat.lt_of_lt_of_le h0 (Nat.le_of_lt hlt)
    have hua : toVal a ≤ USIZE_MAX := Nat.le_trans (Nat.le_of_lt hlt) hub
    have hge : ¬ toVal a - 1 ≥ toVal b - 1 := by omega
    have hup : toVal b - 1 + 1 = toVal b := Nat.succ_pred_eq_of_pos h0b
    simp only [parseToken, parse_index_err_of_dash ha, rangeMatch_append ha hb,
      parse_index_of_digits ha h0 hua, parse_index_of_digits hb h0b hub,
      if_neg hge, hup]

theorem mapE_forall₂ {f : α → Except ε β} {ts : List α} {rs : List β}
    (h : List.Forall₂ (fun t r => f t = .ok r) ts rs) :
    mapE f ts = .ok rs := by
  induction h with
  | nil => rfl
  | cons h₁ _ ih => simp only [mapE, h₁, ih]

/-- C1: for every specification string whose comma-separated tokens are all
well-formed, `parse_pos` returns the concatenation, in token order, of each
token's range: a single positive one-based integer `N` (leading zeros
accepted) yields `[N-1, N)` and a range `N1-N2` with `N1 < N2` yields
`[N1-1, N2)`; the list is neither sorted nor merged.  In particular
`parse("1") = [0..1]`, `parse("01") = [0..1]`, `parse("1,3") = [0..1, 2..3]`,
`parse("1-3") = [0..3]`, `parse("1,7,3-5") = [0..1, 6..7, 2..5]` and
`parse("15,19-20") = [14..15, 18..20]`. -/
theorem parse_pos_wellformed_ok :
    (∀ (s : List Char) (rs : List PosRange),
        List.Forall₂ WFTok (splitComma s) rs → parse_pos s = .ok rs) ∧
    parse_pos "1".data = .ok [⟨0, 1⟩] ∧
    parse_pos "01".data = .ok [⟨0, 1⟩] ∧
    parse_pos "1,3".data = .ok [⟨0, 1⟩, ⟨2, 3⟩] ∧
    parse_pos "1-3".data = .ok [⟨0, 3⟩] ∧
    parse_pos "1,7,3-5".data = .ok [⟨0, 1⟩, ⟨6, 7⟩, ⟨2, 5⟩] ∧
    parse_pos "15,19-20".data = .ok [⟨14, 15⟩, ⟨18, 20⟩] := by
  refine ⟨fun s rs h => ?_, rfl, rfl, rfl, rfl, rfl, rfl⟩
  exact mapE_forall₂ (h.imp fun _ _ ht => parseToken_wf ht)

/-! ## Invalid tokens -/

theorem allDigits_false_head {c : Char} (h : c.isDigit = false) (cs : List Char) :
    allDigits (c :: cs) = false := by
  unfold allDigits
  simp [h]

theorem parse_index_err_of_not_num {t : List Char}
    (h : ¬(allDigits t = true ∧ 0 < toVal t ∧ toVal t ≤ USIZE_MAX)) :
    parse_index t = .error (valueError t) := by
  have hnz : parseNZ t = none := by
    unfold parseNZ
    rw [if_neg]
    simp only [Bool.and_eq_true, decide_eq_true_eq]
    tauto
  unfold parse_index
  by_cases hh : t.head? = some '+'
  · rw [if_pos hh]
  · rw [if_neg hh, hnz]

theorem splitComma_no_comma {t : List Char} (h : ',' ∉ t) :
    splitComma t = [t] := by
  induction t with
  | nil => rfl
  | cons c cs ih =>
    have hc : c ≠ ',' := fun hx => h (hx ▸ List.mem_cons_self _ _)
    have hcs : ',' ∉ cs := fun hx => h (List.mem_cons_of_mem _ hx)
    simp [splitComma, hc, ih hcs]

theorem parse_pos_single_err {t : List Char} (hc : ',' ∉ t)
    (hpi : parse_index t = .error (valueError t)) (hrm : rangeMatch t = none) :
    parse_pos t = .error (valueError t) := by
  unfold parse_pos
  rw [splitComma_no_comma hc]
  simp only [mapE, parseToken, hpi, hrm]

theorem rangeMatch_none_of_plus {cs : List Char} :
    rangeMatch ('+' :: cs) = none := by
  unfold rangeMatch splitDash
  rw [if_neg (by decide : ¬('+' = '-'))]
  cases hsd : splitDash cs with
  | none => rfl
  | some p =>
    have hd : allDigits ('+' :: p.1) = false := allDigits_false_head (by decide) p.1
    simp [hd]

theorem mapE_err_of_mem {f : α → Except ε β} {ts : List α} {t : α}
    (hm : t ∈ ts) {e' : ε} (he : f t = .error e') :
    ∃ e, mapE f ts = .error e := by
  induction ts with
  | nil => cases hm
  | cons a as ih =>
    cases hfa : f a with
    | error e => exact ⟨e, by simp only [mapE, hfa]⟩
    | ok b =>
      rcases List.mem_cons.mp hm with h | h
      · subst h
        rw [hfa] at he
        cases he
      · rcases ih h with ⟨e, hmap⟩
        exact ⟨e, by simp only [mapE, hfa, hmap]⟩

/-- C2: every ASCII token that is neither a positive one-based decimal integer
nor a digits-digits range-pattern match makes `parse_pos` fail, and when such
a token stands alone the error echoes the exact original token text as
`illegal list value: "<token>"`; every token beginning with `+` (ASCII or
not) fails echoing the whole token.  The universal conjuncts are stated over
ASCII tokens, the fragment on which the embedded regex model provably
coincides with the regex crate's Unicode `\d` (see `rangeMatch`); on tokens
holding non-ASCII decimal digits the program echoes the failing capture
instead.  In particular `parse("")`, `parse(",")`, `parse("1,")`,
`parse("1-")`, `parse("-")` and `parse("1-1-1")` all fail; `parse("0")` fails
with `illegal list value: "0"`; `parse("+1")`, `parse("+1-2")`,
`parse("1-+2")` echo the whole token; and `parse("a")`, `parse("1,a")`,
`parse("1-a")`, `parse("a-1")` echo the whole malformed token. -/
theorem parse_pos_invalid_token :
    (∀ t : List Char, ',' ∉ t → (∀ c ∈ t, c.toNat ≤ 127) →
        ¬(allDigits t = true ∧ 0 < toVal t ∧ toVal t ≤ USIZE_MAX) →
        rangeMatch t = none →
        parse_pos t = .error (valueError t)) ∧
    (∀ t : List Char, t.head? = some '+' → ',' ∉ t →
        parse_pos t = .error (valueError t)) ∧
    (∀ (s t : List Char), t ∈ splitComma s → (∀ c ∈ t, c.toNat ≤ 127) →
        ¬(allDigits t = true ∧ 0 < toVal t ∧ toVal t ≤ USIZE_MAX) →
        rangeMatch t = none →
        ∃ e, parse_pos s = .error e) ∧
    parse_pos "".data = .error "illegal list value: \"\"" ∧
    parse_pos ",".data = .error "illegal list value: \"\"" ∧
    parse_pos "1,".data = .error "illegal list value: \"\"" ∧
    parse_pos "1-".data = .error "illegal list value: \"1-\"" ∧
    parse_pos "-".data = .error "illegal list value: \"-\"" ∧
    parse_pos "1-1-1".data = .error "illegal list value: \"1-1-1\"" ∧
    parse_pos "0".data = .error "illegal list value: \"0\"" ∧
    parse_pos "+1".data = .error "illegal list value: \"+1\"" ∧
    parse_pos "+1-2".data = .error "illegal list value: \"+1-2\"" ∧
    parse_pos "1-+2".data = .error "illegal list value: \"1-+2\"" ∧
    parse_pos "a".data = .error "illegal list value: \"a\"" ∧
    parse_pos "1,a".data = .error "illegal list value: \"a\"" ∧
    parse_pos "1-a".data = .error "illegal list value: \"1-a\"" ∧
    parse_pos "a-1".data = .error "illegal list value: \"a-1\"" := by
  refine ⟨fun t hc _ha hn hrm => parse_pos_single_err hc (parse_index_err_of_not_num hn) hrm,
    fun t hp hc => ?_, fun s t hm _ha hn hrm => ?_,
    rfl, rfl, rfl, rfl, rfl, rfl, rfl, rfl, rfl, rfl, rfl, rfl, rfl, rfl⟩
  · cases t with
    | nil => cases hp
    | cons c cs =>
      have hc' : c = '+' := by
        simpa using hp
      subst hc'
      refine parse_pos_single_err hc (parse_index_err_of_not_num ?_) rangeMatch_none_of_plus
      intro ⟨hd, _, _⟩
      rw [allDigits_false_head (by decide) cs] at hd
      cases hd
  · exact mapE_err_of_mem hm (by
      unfold parseToken
      rw [parse_index_err_of_not_num hn, hrm])

/-- C3: for every range token `N1-N2` whose parts are valid positive one-based
integers with `N1 >= N2`, `parse_pos` fails with the message
`First number in range (N1) must be lower than second number (N2)` built from
the one-based display values (not the internal zero-based indices).  In
particular `parse("1-1")` and `parse("2-1")` fail with those messages. -/
theorem parse_pos_range_order :
    (∀ a b : List Char, allDigits a = true → allDigits b = true →
        0 < toVal b → toVal b ≤ toVal a → toVal a ≤ USIZE_MAX →
        parse_pos (a ++ '-' :: b) =
          .error ("First number in range (" ++ Nat.repr (toVal a) ++
            ") must be lower than second number (" ++ Nat.repr (toVal b) ++ ")")) ∧
    parse_pos "1-1".data =
      .error "First number in range (1) must be lower than second number (1)" ∧
    parse_pos "2-1".data =
      .error "First number in range (2) must be lower than second number (1)" := by
  refine ⟨fun a b ha hb h0b hle hua => ?_, rfl, rfl⟩
  have h0a : 0 < toVal a := Nat.lt_of_lt_of_le h0b hle
  have hub : toVal b ≤ USIZE_MAX := Nat.le_trans hle hua
  have hc : ',' ∉ a ++ '-' :: b := by
    intro hm
    rcases List.mem_append.mp hm with h | h
    · have := allDigits_mem ha h
      simp [Char.isDigit] at this
    · rcases List.mem_cons.mp h with h | h
      · cases h
      · have := allDigits_mem hb h
        simp [Char.isDigit] at this
  have hge : toVal a - 1 ≥ toVal b - 1 := by omega
  have hmsg : rangeOrderMsg (toVal a - 1) (toVal b - 1) =
      "First number in range (" ++ Nat.repr (toVal a) ++
        ") must be lower than second number (" ++ Nat.repr (toVal b) ++ ")" := by
    unfold rangeOrderMsg
    have e1 : toVal a - 1 + 1 = toVal a := by omega
    have e2 : toVal b - 1 + 1 = toVal b := by omega
    rw [e1, e2]
  unfold parse_pos
  rw [splitComma_no_comma hc]
  simp only [mapE, parseToken, parse_index_err_of_dash ha, rangeMatch_append ha hb,
    parse_index_of_digits ha h0a hua, parse_index_of_digits hb h0b hub,
    if_pos hge, hmsg]

/-! ## The parsed ranges are nonempty intervals -/

theorem parseToken_ok_lt {t : List Char} {r : PosRange}
    (h : parseToken t = .ok r) : r.start < r.stop := by
  unfold parseToken at h
  split at h
  · cases h
    exact Nat.lt_succ_self _
  · split at h
    · cases h
    · split at h
      · cases h
      · split at h
        · cases h
        · split at h
          · cases h
          · rename_i hlt
            cases h
            exact Nat.lt_succ_of_lt (Nat.lt_of_not_le hlt)

theorem mapE_ok_all {f : α → Except ε β} {p : β → Bool}
    (hf : ∀ a b, f a = .ok b → p b = true) :
    ∀ {ts : List α} {rs : List β}, mapE f ts = .ok rs → rs.all p = true := by
  intro ts
  induction ts with
  | nil =>
    intro rs h
    cases h
    rfl
  | cons a as ih =>
    intro rs h
    unfold mapE at h
    cases hfa : f a with
    | error e =>
      rw [hfa] at h
      cases h
    | ok b =>
      rw [hfa] at h
      cases hm : mapE f as with
      | error e =>
        rw [hm] at h
        cases h
      | ok bs =>
        rw [hm] at h
        cases h
        simp only [List.all_cons, Bool.and_eq_true]
        exact ⟨hf a b hfa, ih hm⟩

/-- C4: whenever `parse_pos` succeeds, every range in the returned position
list is a nonempty half-open interval of zero-based indices: `start < stop`
(a single-index token becomes a range of length exactly 1). -/
theorem parse_pos_ok_ranges_nonempty (s : List Char) (rs : List PosRange)
    (h : parse_pos s = .ok rs) :
    rs.all (fun r => decide (r.start < r.stop)) = true :=
  mapE_ok_all (fun _ _ hr => decide_eq_true (parseToken_ok_lt hr)) h

/-- Witness for C4 at the concrete input `"1,7,3-5"`. -/
theorem parse_pos_ok_ranges_nonempty_witness :
    ([⟨0, 1⟩, ⟨6, 7⟩, ⟨2, 5⟩] : List PosRange).all
      (fun r => decide (r.start < r.stop)) = true :=
  parse_pos_ok_ranges_nonempty "1,7,3-5".data [⟨0, 1⟩, ⟨6, 7⟩, ⟨2, 5⟩] rfl

/-! ## Extractors -/

theorem extract_chars_append (line : List Char) (ps1 ps2 : List PosRange) :
    extract_chars line (ps1 ++ ps2) =
      extract_chars line ps1 ++ extract_chars line ps2 := by
  induction ps1 with
  | nil => rfl
  | cons p ps ih => simp [extract_chars, ih]

/-- C5: `extract_chars` works on the line's character sequence; ranges are
applied strictly in list order (so selections concatenate), and a range whose
start is at or beyond the line's character count contributes nothing — no
error, no padding.  In particular `extract_chars("", [0..1]) = ""`,
`extract_chars("ábc", [0..1]) = "á"`, `extract_chars("ábc", [2..3, 1..2]) =
"cb"` and `extract_chars("ábc", [0..1, 1..2, 4..5]) = "áb"`. -/
theorem extract_chars_spec :
    (∀ (line : List Char) (ps1 ps2 : List PosRange),
        extract_chars line (ps1 ++ ps2) =
          extract_chars line ps1 ++ extract_chars line ps2) ∧
    (∀ (line : List Char) (p : PosRange) (ps : List PosRange),
        line.length ≤ p.start →
        extract_chars line (p :: ps) = extract_chars line ps) ∧
    extract_chars "".data [⟨0, 1⟩] = "".data ∧
    extract_chars "ábc".data [⟨0, 1⟩] = "á".data ∧
    extract_chars "ábc".data [⟨2, 3⟩, ⟨1, 2⟩] = "cb".data ∧
    extract_chars "ábc".data [⟨0, 1⟩, ⟨1, 2⟩, ⟨4, 5⟩] = "áb".data := by
  refine ⟨extract_chars_append, fun line p ps h => ?_, rfl, rfl, rfl, rfl⟩
  have hd : line.drop p.start = [] := List.drop_eq_nil_of_le h
  simp [extract_chars, hd]

theorem selBytes_append (bytes : List Nat) (ps1 ps2 : List PosRange) :
    selBytes bytes (ps1 ++ ps2) = selBytes bytes ps1 ++ selBytes bytes ps2 := by
  induction ps1 with
  | nil => rfl
  | cons p ps ih => simp [selBytes, ih]

/-- C6: `extract_bytes` selects from the line's raw UTF-8 byte sequence (per
range in list order, accumulating one byte buffer), then lossily decodes the
buffer, substituting the replacement character for invalid sequences; it is
total, and a range starting at or beyond the byte length contributes nothing.
In particular `extract_bytes("ábc", [0..1])` is the replacement-marker string,
`extract_bytes("ábc", [0..2]) = "á"`, `extract_bytes("ábc", [0..4]) = "ábc"`
and `extract_bytes("ábc", [3..4, 2..3]) = "cb"`. -/
theorem extract_bytes_spec :
    (∀ (bytes : List Nat) (ps1 ps2 : List PosRange),
        selBytes bytes (ps1 ++ ps2) = selBytes bytes ps1 ++ selBytes bytes ps2) ∧
    (∀ (line : List Char) (ps : List PosRange),
        extract_bytes line ps = utf8LossyDecode (selBytes (utf8Encode line) ps)) ∧
    (∀ (line : List Char) (p : PosRange) (ps : List PosRange),
        (utf8Encode line).length ≤ p.start →
        extract_bytes line (p :: ps) = extract_bytes line ps) ∧
    extract_bytes "ábc".data [⟨0, 1⟩] = [repChar] ∧
    extract_bytes "ábc".data [⟨0, 2⟩] = "á".data ∧
    extract_bytes "ábc".data [⟨0, 4⟩] = "ábc".data ∧
    extract_bytes "ábc".data [⟨3, 4⟩, ⟨2, 3⟩] = "cb".data := by
  refine ⟨selBytes_append, fun line ps => rfl, fun line p ps h => ?_, rfl, rfl, rfl, rfl⟩
  have hd : (utf8Encode line).drop p.start = [] := List.drop_eq_nil_of_le h
  unfold extract_bytes
  simp [selBytes, hd]

theorem extract_fields_append (record : List String) (ps1 ps2 : List PosRange) :
    extract_fields record (ps1 ++ ps2) =
      extract_fields record ps1 ++ extract_fields record ps2 := by
  induction ps1 with
  | nil => rfl
  | cons p ps ih => simp [extract_fields, ih]

/-- C7: `extract_fields` is total: a range starting at or beyond the field
count contributes nothing (no out-of-bounds access, no failure) and the output
never holds more fields than the ranges request, while in-bounds selections
preserve duplicate/reordered range semantics.  In particular
`extract_fields(["Captain","Sham","12345"], [0..1, 2..3]) = ["Captain",
"12345"]`, `[0..1, 3..4]` yields `["Captain"]` and `[1..2, 0..1]` yields
`["Sham", "Captain"]`. -/
theorem extract_fields_spec :
    (∀ (record : List String) (ps1 ps2 : List PosRange),
        extract_fields record (ps1 ++ ps2) =
          extract_fields record ps1 ++ extract_fields record ps2) ∧
    (∀ (record : List String) (p : PosRange) (ps : List PosRange),
        record.length ≤ p.start →
        extract_fields record (p :: ps) = extract_fields record ps) ∧
    (∀ (record : List String) (ps : List PosRange),
        (extract_fields record ps).length ≤
          (ps.map (fun p => p.stop - p.start)).sum) ∧
    extract_fields ["Captain", "Sham", "12345"] [⟨0, 1⟩, ⟨2, 3⟩] =
      ["Captain", "12345"] ∧
    extract_fields ["Captain", "Sham", "12345"] [⟨0, 1⟩, ⟨3, 4⟩] = ["Captain"] ∧
    extract_fields ["Captain", "Sham", "12345"] [⟨1, 2⟩, ⟨0, 1⟩] =
      ["Sham", "Captain"] := by
  refine ⟨extract_fields_append, fun record p ps h => ?_, fun record ps => ?_,
    rfl, rfl, rfl⟩
  · have hd : record.drop p.start = [] := List.drop_eq_nil_of_le h
    simp [extract_fields, hd]
  · induction ps with
    | nil => simp [extract_fields]
    | cons p ps ih =>
      simp only [extract_fields, List.length_append, List.map_cons, List.sum_cons]
      have htk : ((record.drop p.start).take (p.stop - p.start)).length ≤
          p.stop - p.start := by
        simp [List.length_take]
      omega

/-! ## The dispatcher -/

/-- C8: an open failure on one source is reported on the diagnostic stream as
`"<source-name>: <underlying-error-message>"` and never affects the remaining
sources: for any block of sources that fail to open, the stdout and the
outcome are exactly those of the remaining sources, and a run consisting only
of open failures still ends with `Ok(())`. -/
theorem run_open_failure_isolated :
    (∀ (ex : Extract) (pre : List (String × String)) (rest : Sources),
        run ex (pre.map (fun p => (p.1, Except.error p.2)) ++ rest) =
          ((run ex rest).1,
            pre.map (fun p => p.1 ++ ": " ++ p.2) ++ (run ex rest).2.1,
            (run ex rest).2.2)) ∧
    (∀ (ex : Extract) (pre : List (String × String)),
        (run ex (pre.map (fun p => (p.1, Except.error p.2)))).2.2 =
          RunOutcome.ok) := by
  have key : ∀ (ex : Extract) (pre : List (String × String)) (rest : Sources),
      run ex (pre.map (fun p => (p.1, Except.error p.2)) ++ rest) =
        ((run ex rest).1,
          pre.map (fun p => p.1 ++ ": " ++ p.2) ++ (run ex rest).2.1,
          (run ex rest).2.2) := by
    intro ex pre rest
    induction pre with
    | nil => rfl
    | cons q qs ih => simp [run, ih]
  refine ⟨key, fun ex pre => ?_⟩
  have h := key ex pre []
  rw [List.append_nil] at h
  rw [h]
  rfl

theorem stepOf_ne_noMode (p : List OutItem × Option String) :
    (stepOf p).2 ≠ SourceStep.noMode := by
  unfold stepOf
  cases p.2 with
  | none => simp
  | some e => simp

theorem runSource_ne_noMode {ex : Extract}
    (h : ex.fields.isSome = true ∨ ex.bytes.isSome = true ∨
      ex.chars.isSome = true) (sd : SourceData) :
    (runSource ex sd).2 ≠ SourceStep.noMode := by
  unfold runSource
  cases hch : ex.chars with
  | some pl => exact stepOf_ne_noMode _
  | none =>
    cases hby : ex.bytes with
    | some pl => exact stepOf_ne_noMode _
    | none =>
      cases hfi : ex.fields with
      | some pl => exact stepOf_ne_noMode _
      | none =>
        rw [hch, hby, hfi] at h
        simp at h

/-- C9: under the boundary precondition that exactly one of
{fields, bytes, chars} is present, the dispatcher's defensive
`unimplemented!()` fallback is unreachable: for every source list, `run` never
ends in the `noMode` outcome, and no opened source ever reaches the fallback
branch. -/
theorem run_no_mode_fallback_unreachable (ex : Extract)
    (h : ex.fields.isSome.toNat + ex.bytes.isSome.toNat +
      ex.chars.isSome.toNat = 1) :
    (∀ srcs : Sources, (run ex srcs).2.2 ≠ RunOutcome.noMode) ∧
    (∀ sd : SourceData, (runSource ex sd).2 ≠ SourceStep.noMode) := by
  have hone : ex.fields.isSome = true ∨ ex.bytes.isSome = true ∨
      ex.chars.isSome = true := by
    rcases hf : ex.fields.isSome with _ | _ <;>
      rcases hb : ex.bytes.isSome with _ | _ <;>
        rcases hc : ex.chars.isSome with _ | _ <;>
          rw [hf, hb, hc] at h <;> simp_all
  refine ⟨fun srcs => ?_, runSource_ne_noMode hone⟩
  induction srcs with
  | nil => simp [run]
  | cons src rest ih =>
    rcases src with ⟨name, od⟩
    cases od with
    | error e => simpa [run] using ih
    | ok sd =>
      cases hrs : runSource ex sd with
      | mk os st =>
        cases st with
        | done => simpa [run, hrs] using ih
        | readErr e => simp [run, hrs]
        | noMode =>
          have := runSource_ne_noMode hone sd
          rw [hrs] at this
          simp at this

/-- Witness for C9 at a concrete single-mode `Extract` and a one-source
list. -/
theorem run_no_mode_fallback_unreachable_witness :
    (run ⟨none, none, some [⟨0, 1⟩]⟩ [("a", Except.ok ⟨[], []⟩)]).2.2 ≠
      RunOutcome.noMode :=
  (run_no_mode_fallback_unreachable ⟨none, none, some [⟨0, 1⟩]⟩ rfl).1
    [("a", Except.ok ⟨[], []⟩)]

theorem consumeLines_first_err (f : List Char → List Char)
    (good : List (List Char)) (e : String)
    (more : List (Except String (List Char))) :
    consumeLines f (good.map Except.ok ++ Except.error e :: more) =
      (good.map (fun l => OutItem.line (f l)), some e) := by
  induction good with
  | nil => rfl
  | cons l ls ih => simp [consumeLines, ih]

theorem consumeRecords_first_err (pl : List PosRange)
    (good : List (List String)) (e : String)
    (more : List (Except String (List String))) :
    consumeRecords pl (good.map Except.ok ++ Except.error e :: more) =
      (good.map (fun rec => OutItem.record (extract_fields rec pl)), some e) := by
  induction good with
  | nil => rfl
  | cons rec recs ih => simp [consumeRecords, ih]

/-- C10: a read failure on an already-opened source ends the entire run with
that error: in each of the three modes, the lines/records before the failure
are still emitted, the remaining items of the failing source are not
processed, no diagnostic is printed for it, and all subsequent sources are
skipped. -/
theorem run_read_error_ends_run :
    (∀ (pl : List PosRange) (name : String) (good : List (List Char))
        (e : String) (more : List (Except String (List Char)))
        (recs : List (Except String (List String))) (rest : Sources),
        run ⟨none, none, some pl⟩
            ((name, Except.ok ⟨good.map Except.ok ++ Except.error e :: more,
              recs⟩) :: rest) =
          (good.map (fun l => OutItem.line (extract_chars l pl)), [],
            RunOutcome.readError e)) ∧
    (∀ (pl : List PosRange) (name : String) (good : List (List Char))
        (e : String) (more : List (Except String (List Char)))
        (recs : List (Except String (List String))) (rest : Sources),
        run ⟨none, some pl, none⟩
            ((name, Except.ok ⟨good.map Except.ok ++ Except.error e :: more,
              recs⟩) :: rest) =
          (good.map (fun l => OutItem.line (extract_bytes l pl)), [],
            RunOutcome.readError e)) ∧
    (∀ (pl : List PosRange) (name : String) (good : List (List String))
        (e : String) (more : List (Except String (List String)))
        (lns : List (Except String (List Char))) (rest : Sources),
        run ⟨some pl, none, none⟩
            ((name, Except.ok ⟨lns, good.map Except.ok ++
              Except.error e :: more⟩) :: rest) =
          (good.map (fun rec => OutItem.record (extract_fields rec pl)), [],
            RunOutcome.readError e)) := by
  refine ⟨fun pl name good e more recs rest => ?_,
    fun pl name good e more recs rest => ?_,
    fun pl name good e more lns rest => ?_⟩
  · simp [run, runSource, stepOf, consumeLines_first_err]
  · simp [run, runSource, stepOf, consumeLines_first_err]
  · simp [run, runSource, stepOf, consumeRecords_first_err]
